import Mathlib

/-
  Verification of the pub/sub chat node (examples/pub.rs).

  The development shallowly embeds the program's pure logic and its
  event-loop structure:
  * `strip_peer_id`, `sanitize`, `parse_legacy_multiaddr` — address
    normalization (pub.rs lines 88-115);
  * `dialLoop` — the startup dial loop of `main` (pub.rs lines 233-237);
  * `get_psk`, `build_transport` — pre-shared-key loading and transport
    construction (pub.rs lines 28-84), with the filesystem read and the
    multiaddr parser abstracted as function parameters;
  * `Gossipsub` — the broadcast protocol's subscription/publication
    surface, modelled from the spec (the gossipsub crate is external);
  * `handle_input_line` — the command interpreter (pub.rs lines 276-322);
  * `turn` / `runAux` — one scheduling turn, resp. a run, of the
    cooperative event loop in `main` (pub.rs lines 246-273).
-/

namespace PubSubLite

/-! ## String splitting and joining

Rust's `str::split` with a one-character separator and `Vec::join` are
modelled structurally so that they evaluate in the kernel.  Like Rust's
`split`, splitting the empty string yields `[""]`, and adjacent
separators yield empty components. -/

/-- Auxiliary for `splitChar`: `acc` holds the current component reversed. -/
def splitCharAux (sep : Char) : List Char → List Char → List String
  | [], acc => [String.mk acc.reverse]
  | c :: cs, acc =>
    if c = sep then String.mk acc.reverse :: splitCharAux sep cs []
    else splitCharAux sep cs (c :: acc)

/-- `s.split(sep)` for a one-character separator, collected to a list. -/
def splitChar (s : String) (sep : Char) : List String :=
  splitCharAux sep s.data []

/-- `parts.join("/")` of the Rust source. -/
def joinSlash : List String → String
  | [] => ""
  | [p] => p
  | p :: ps => p ++ "/" ++ joinSlash ps

/-! ## Multiaddr model -/

/-- A single multiaddr component.  The source's `Protocol` enum has many
variants; for normalization only the `P2p` variant is distinguished, all
others are opaque name/value pairs. -/
inductive Protocol
  | p2p (peerId : String)
  | other (name : String) (value : String)
deriving DecidableEq, Repr

/-- A multiaddr is a sequence of components; the multiaddr crate's `push`
appends at the end and `pop` removes from the end. -/
abbrev Multiaddr := List Protocol

/-! ## Address normalization (pub.rs lines 86-115) -/

/-- `strip_peer_id` (pub.rs lines 88-102): pop the last component; if it is
`P2p`, drop it (the source also prints a diagnostic); if it is any other
component, push it back, restoring the address; an empty address is left
alone. -/
def strip_peer_id (addr : Multiaddr) : Multiaddr :=
  match List.getLast? addr with
  | some (Protocol.p2p _) => List.dropLast addr
  | some last => List.dropLast addr ++ [last]
  | none => addr

/-- The component rewrite inside `parse_legacy_multiaddr` (pub.rs lines
107-111): split on `/`, replace each part equal to `ipfs` by `p2p`,
re-join with `/`. -/
def sanitize (text : String) : String :=
  joinSlash ((splitChar text '/').map (fun part => if part = "ipfs" then "p2p" else part))

/-- `parse_legacy_multiaddr` (pub.rs lines 106-115).  `parse` abstracts
`Multiaddr::from_str` of the external multiaddr crate; `?` propagates its
error. -/
def parse_legacy_multiaddr (parse : String → Except String Multiaddr)
    (text : String) : Except String Multiaddr :=
  match parse (sanitize text) with
  | .error e => .error e
  | .ok res => .ok (strip_peer_id res)

/-! ## Startup dial loop (pub.rs lines 233-237)

```
for to_dial in std::env::args().skip(1) {
    let addr: Multiaddr = parse_legacy_multiaddr(&to_dial)?;
    Swarm::dial_addr(&mut swarm, addr)?;
    println!("Dialed {:?}", to_dial)
}
```

`dial` abstracts `Swarm::dial_addr`; both `?`s propagate.  The result's
first component records every address actually passed to `dial` (the dial
attempts); the second is the loop's outcome: `ok` with the arguments whose
`Dialed` line was printed, or the first propagated error, which aborts
`main` before the event loop starts. -/

def dialLoop (parse : String → Except String Multiaddr)
    (dial : Multiaddr → Except String Unit) :
    List String → List Multiaddr × Except String (List String)
  | [] => ([], .ok [])
  | a :: rest =>
    match parse_legacy_multiaddr parse a with
    | .error e => ([], .error e)
    | .ok addr =>
      match dial addr with
      | .error e => ([addr], .error e)
      | .ok _ =>
        let r := dialLoop parse dial rest
        (addr :: r.1,
         match r.2 with
         | .ok dialed => .ok (a :: dialed)
         | .error e => .error e)

/-! ## Pre-shared key and transport (pub.rs lines 28-84) -/

/-- The kind of a filesystem error, as inspected by `get_psk`. -/
inductive FsErrorKind
  | notFound
  | otherErr (descr : String)
deriving DecidableEq, Repr

/-- `get_psk` (pub.rs lines 77-84): read `<path>/swarm.key`; a `NotFound`
error becomes `Ok(None)`, any other error propagates, success wraps the
text in `Some`.  `read` abstracts `fs::read_to_string`. -/
def get_psk (read : String → Except FsErrorKind String) (path : String) :
    Except FsErrorKind (Option String) :=
  match read (path ++ "/swarm.key") with
  | .ok text => .ok (some text)
  | .error e => if e = FsErrorKind.notFound then .ok none else .error e

/-- An opaque pre-shared key (the source's `PreSharedKey`). -/
structure PreSharedKey where
  key : String
deriving DecidableEq, Repr

/-- The `maybe_encrypted` branch of `build_transport` (pub.rs lines 50-55):
`Left` wraps the base transport with the pnet handshake, `Right` is the
base transport unchanged.  The branch is taken once, when the transport is
built. -/
inductive MaybeEncrypted
  | left (psk : PreSharedKey)
  | right
deriving DecidableEq, Repr

/-- Static description of the transport returned by `build_transport`
(pub.rs lines 28-61): the pnet branch, then `upgrade(Version::V1)`,
`authenticate(secio(key_pair))`, `multiplex(yamux)`, and a 20-second
timeout. -/
structure TransportDesc where
  maybeEncrypted : MaybeEncrypted
  upgradeVersion : Nat
  secioKeyPair : String
  yamuxMultiplex : Bool
  timeoutSecs : Nat
deriving DecidableEq, Repr

/-- `build_transport` (pub.rs lines 28-61). -/
def build_transport (key_pair : String) (psk : Option PreSharedKey) :
    TransportDesc :=
  { maybeEncrypted :=
      match psk with
      | some k => MaybeEncrypted.left k
      | none => MaybeEncrypted.right,
    upgradeVersion := 1,
    secioKeyPair := key_pair,
    yamuxMultiplex := true,
    timeoutSecs := 20 }

/-! ## Broadcast protocol surface

The gossipsub crate is an external dependency, not part of this
repository's sources; its subscription/publication surface is modelled
from the spec. -/

/-- Modelled from the spec: the broadcast protocol's local state — the
topics currently subscribed (`subscribe(topic) -> bool`, true iff newly
subscribed, idempotent) and a log of published `(topic, payload)` pairs
(`publish(topic, bytes)`, fire-and-forget). -/
structure Gossipsub where
  subscribed : List String
  published : List (String × String)
deriving DecidableEq, Repr

/-- `Gossipsub::new` starts with no subscriptions and nothing published. -/
def Gossipsub.new : Gossipsub :=
  { subscribed := [], published := [] }

/-- Modelled from the spec: `subscribe` returns `true` iff the topic was
not already subscribed; re-subscribing changes nothing and returns
`false`. -/
def Gossipsub.subscribe (g : Gossipsub) (topic : String) : Gossipsub × Bool :=
  if topic ∈ g.subscribed then (g, false)
  else ({ g with subscribed := g.subscribed ++ [topic] }, true)

/-- Modelled from the spec: `publish` integrates the message into the
broadcast protocol (recorded in the log) and yields a result the spec
calls fire-and-forget (no delivery acknowledgment); the `Bool` stands for
that underlying result. -/
def Gossipsub.publish (g : Gossipsub) (topic : String) (data : String) :
    Gossipsub × Bool :=
  ({ g with published := g.published ++ [(topic, data)] }, true)

/-! ## Command interpreter (pub.rs lines 276-322) -/

/-- One line printed by the program, tagged by its print site:
`stderrLine` is an `eprintln!` diagnostic of the command interpreter,
`stdoutLine` a `println!` of the command interpreter, `eventLine` the
event-loop's `println!("{:?}", event)`, and `addressLine` the
`println!("Address {}/ipfs/{}", addr, peer)` announcement. -/
inductive Out
  | stderrLine (s : String)
  | stdoutLine (s : String)
  | eventLine (s : String)
  | addressLine (s : String)
deriving DecidableEq, Repr

/-- The body of `handle_input_line` after `line.split(" ")`: consume the
tokens like the source's `args.next()` calls. -/
def handle_tokens (g : Gossipsub) (args : List String) : Gossipsub × List Out :=
  match args with
  | [] => (g, [Out.stderrLine "expected PUB or SUB"])
  | cmd :: rest =>
    if cmd = "SUB" then
      match rest with
      | [] => (g, [Out.stderrLine "Expected topic"])
      | topic :: _ =>
        let p := g.subscribe topic
        if p.2 = true then
          (p.1, [Out.stdoutLine ("Subscribed to topic " ++ topic)])
        else
          (p.1, [Out.stdoutLine "Failed to subscribe to topic"])
    else if cmd = "PUB" then
      match rest with
      | [] => (g, [Out.stderrLine "Expected topic"])
      | topic :: rest2 =>
        match rest2 with
        | [] => (g, [Out.stderrLine "Expected message"])
        | msg :: _ =>
          ((g.publish topic msg).1, [])
    else (g, [Out.stderrLine "expected PUB or SUB"])

/-- `handle_input_line` (pub.rs lines 276-322): split the line on the
single space character and interpret the tokens.  Returns the new
broadcast state and the lines printed. -/
def handle_input_line (g : Gossipsub) (line : String) : Gossipsub × List Out :=
  handle_tokens g (splitChar line ' ')

/-! ## Event loop (pub.rs lines 240-273) -/

/-- What the stdin stream reports once its immediately-available lines are
drained: `pending` (more may come later), `closed` (end-of-input,
`Poll::Ready(None)`), or `ioError` (a read error, propagated by `?`). -/
inductive StdinEnd
  | pending
  | closed
  | ioError (e : String)
deriving DecidableEq, Repr

/-- The external input of one scheduling turn: the stdin lines immediately
available (then `stdinEnd`), the network events immediately available
(then `Poll::Ready(None)` if `netDone`, else `Poll::Pending`), and the
listener addresses `Swarm::listeners` currently reports. -/
structure TurnInput where
  stdinLines : List String
  stdinEnd : StdinEnd
  netEvents : List String
  netDone : Bool
  listeners : List String
deriving DecidableEq, Repr

/-- How a scheduling turn of the `poll_fn` closure ends: `pendingTurn`
returns `Poll::Pending` with the updated broadcast state and `listening`
flag; `finished` is `Poll::Ready(Ok(()))`; `fatal` is the
`panic!("Stdin closed")`; `errored` is `Poll::Ready(Err(e))` produced by
the `?` on the stdin poll. -/
inductive TurnResult
  | pendingTurn (g : Gossipsub) (listening : Bool)
  | finished (g : Gossipsub)
  | fatal (msg : String)
  | errored (e : String)
deriving DecidableEq, Repr

/-- The first inner loop of the closure: apply every immediately-available
stdin line through `handle_input_line`, accumulating the printed lines. -/
def drainStdin (g : Gossipsub) : List String → Gossipsub × List Out
  | [] => (g, [])
  | line :: rest =>
    let p := handle_input_line g line
    let q := drainStdin p.1 rest
    (q.1, p.2 ++ q.2)

/-- One scheduling turn of the closure in `task::block_on(future::poll_fn …)`
(pub.rs lines 247-273): drain stdin (panicking on `None`, propagating an
error with `?`), then drain the network stream (printing each event,
returning `Ok(())` on `None`), and in the final `Poll::Pending` arm print
the one-time address announcement if `listening` is still false, setting
`listening` inside the loop over listeners. -/
def turn (peerId : String) (inp : TurnInput) (g : Gossipsub)
    (listening : Bool) : TurnResult × List Out :=
  let d := drainStdin g inp.stdinLines
  match inp.stdinEnd with
  | .closed => (TurnResult.fatal "Stdin closed", d.2)
  | .ioError e => (TurnResult.errored e, d.2)
  | .pending =>
    let evOuts := inp.netEvents.map Out.eventLine
    if inp.netDone then
      (TurnResult.finished d.1, d.2 ++ evOuts)
    else
      if listening then
        (TurnResult.pendingTurn d.1 listening, d.2 ++ evOuts)
      else
        let addrOuts := inp.listeners.map
          (fun a => Out.addressLine (a ++ "/ipfs/" ++ peerId))
        (TurnResult.pendingTurn d.1 (listening || !inp.listeners.isEmpty),
         d.2 ++ evOuts ++ addrOuts)

/-- Run the event loop over a list of scheduling turns, collecting each
turn's printed lines; the run stops at the first turn that does not return
`Poll::Pending`.  If the inputs are exhausted while still pending, the
final component reports the pending state. -/
def runAux (peerId : String) (g : Gossipsub) (listening : Bool) :
    List TurnInput → List (List Out) × TurnResult
  | [] => ([], TurnResult.pendingTurn g listening)
  | inp :: rest =>
    match turn peerId inp g listening with
    | (TurnResult.pendingTurn g1 l1, outs) =>
      let r := runAux peerId g1 l1 rest
      (outs :: r.1, r.2)
    | (r, outs) => ([outs], r)

/-! ## Startup subscription (pub.rs lines 137-138 and 227-228) -/

/-- The fixed gossipsub topic created at startup: `Topic::new("chat")`. -/
def gossipsub_topic : String := "chat"

/-- The broadcast state of the freshly built behaviour after
`behaviour.gossipsub.subscribe(gossipsub_topic.clone())`, i.e. when
`Swarm::new` is called and before the event loop starts. -/
def startupGossipsub : Gossipsub :=
  (Gossipsub.new.subscribe gossipsub_topic).1

/-! ## Observation predicates on the event loop -/

/-- Is this printed line the `Address …/ipfs/…` announcement? -/
def isAddressLine : Out → Bool
  | Out.addressLine _ => true
  | _ => false

/-- Was this line printed by the command interpreter (`println!` or
`eprintln!` inside `handle_input_line`)? -/
def fromInterpreter : Out → Bool
  | Out.stderrLine _ => true
  | Out.stdoutLine _ => true
  | _ => false

/-- Does a turn's output contain the "now listening" announcement? -/
def announces (outs : List Out) : Bool :=
  outs.any isAddressLine

/-- Does this turn's input let the closure reach the `Poll::Pending` arm of
the network loop (stdin still open, network stream not exhausted)? -/
def reachesPending (inp : TurnInput) : Bool :=
  match inp.stdinEnd with
  | StdinEnd.pending => !inp.netDone
  | _ => false

instance : Inhabited TurnInput :=
  ⟨⟨[], StdinEnd.pending, [], false, []⟩⟩

/-! ## Helper lemmas -/

theorem fromInterpreter_handle_tokens (g : Gossipsub) (args : List String) :
    ∀ o ∈ (handle_tokens g args).2, fromInterpreter o = true := by
  intro o ho
  unfold handle_tokens at ho
  repeat' split at ho
  all_goals try simp only [apply_ite Prod.snd] at ho
  all_goals try split at ho
  all_goals simp_all [fromInterpreter]

theorem fromInterpreter_drainStdin (g : Gossipsub) (lines : List String) :
    ∀ o ∈ (drainStdin g lines).2, fromInterpreter o = true := by
  induction lines generalizing g with
  | nil => intro o ho; simp [drainStdin] at ho
  | cons line rest ih =>
    intro o ho
    simp only [drainStdin, List.mem_append] at ho
    rcases ho with ho | ho
    · exact fromInterpreter_handle_tokens g (splitChar line ' ') o ho
    · exact ih _ o ho

theorem announces_append (a b : List Out) :
    announces (a ++ b) = (announces a || announces b) := by
  simp [announces, List.any_append]

theorem announces_drainStdin (g : Gossipsub) (lines : List String) :
    announces (drainStdin g lines).2 = false := by
  rw [announces, List.any_eq_false]
  intro o ho
  have h := fromInterpreter_drainStdin g lines o ho
  cases o <;> simp_all [fromInterpreter, isAddressLine]

theorem announces_eventLines (l : List String) :
    announces (l.map Out.eventLine) = false := by
  rw [announces, List.any_eq_false]
  intro o ho
  simp only [List.mem_map] at ho
  obtain ⟨e, _, rfl⟩ := ho
  simp [isAddressLine]

theorem announces_addressLines (peerId : String) (l : List String) :
    announces (l.map (fun a => Out.addressLine (a ++ "/ipfs/" ++ peerId)))
      = !l.isEmpty := by
  cases l <;> simp [announces, isAddressLine]

/-- A turn's output carries the announcement exactly when the turn reaches
the `Poll::Pending` arm with the `listening` flag still unset and a
non-empty listener set. -/
theorem announces_turn (p : String) (inp : TurnInput) (g : Gossipsub)
    (l : Bool) :
    announces (turn p inp g l).2
      = (reachesPending inp && !l && !inp.listeners.isEmpty) := by
  unfold turn reachesPending
  cases inp.stdinEnd with
  | closed => simp [announces_drainStdin]
  | ioError e => simp [announces_drainStdin]
  | pending =>
    cases hnd : inp.netDone with
    | true =>
      simp [announces_append, announces_drainStdin, announces_eventLines]
    | false =>
      cases l with
      | true =>
        simp [announces_append, announces_drainStdin, announces_eventLines]
      | false =>
        simp [announces_append, announces_drainStdin, announces_eventLines,
          announces_addressLines]

/-- When the turn reaches `Poll::Pending`, the closure returns `Pending`
with the drained broadcast state; the `listening` flag is set exactly when
it was already set or at least one listener address was printed. -/
theorem turn_reachesPending (p : String) (inp : TurnInput) (g : Gossipsub)
    (l : Bool) (h : reachesPending inp = true) :
    (turn p inp g l).1
      = TurnResult.pendingTurn (drainStdin g inp.stdinLines).1
          (l || !inp.listeners.isEmpty) := by
  unfold turn
  unfold reachesPending at h
  cases hse : inp.stdinEnd with
  | closed => rw [hse] at h; simp at h
  | ioError e => rw [hse] at h; simp at h
  | pending =>
    rw [hse] at h
    simp only [Bool.not_eq_true'] at h
    cases l with
    | true => simp [h]
    | false => simp [h]

/-- When the turn does not reach `Poll::Pending` (stdin closed or errored,
or the network stream exhausted), the closure does not return `Pending`
and the run stops at this turn. -/
theorem turn_not_reachesPending (p : String) (inp : TurnInput)
    (g : Gossipsub) (l : Bool) (h : reachesPending inp = false) :
    ∀ g1 l1, (turn p inp g l).1 ≠ TurnResult.pendingTurn g1 l1 := by
  intro g1 l1
  unfold turn
  unfold reachesPending at h
  cases hse : inp.stdinEnd with
  | closed => simp
  | ioError e => simp
  | pending =>
    rw [hse] at h
    simp only [Bool.not_eq_false'] at h
    simp [h]

/-- Unfolding `runAux` over a turn that stays pending. -/
theorem runAux_cons_pending (p : String) (inp : TurnInput) (g : Gossipsub)
    (l : Bool) (rest : List TurnInput) (h : reachesPending inp = true) :
    runAux p g l (inp :: rest)
      = ((turn p inp g l).2 ::
          (runAux p (drainStdin g inp.stdinLines).1
            (l || !inp.listeners.isEmpty) rest).1,
         (runAux p (drainStdin g inp.stdinLines).1
            (l || !inp.listeners.isEmpty) rest).2) := by
  have hT := turn_reachesPending p inp g l h
  simp only [runAux]
  cases hE : turn p inp g l with
  | mk r outs =>
    rw [hE] at hT
    simp only at hT
    subst hT
    try simp

/-- Unfolding `runAux` over a turn that terminates the loop: the run stops
with exactly this turn's output. -/
theorem runAux_cons_stop (p : String) (inp : TurnInput) (g : Gossipsub)
    (l : Bool) (rest : List TurnInput) (h : reachesPending inp = false) :
    runAux p g l (inp :: rest) = ([(turn p inp g l).2], (turn p inp g l).1) := by
  have hT := turn_not_reachesPending p inp g l h
  simp only [runAux]

/-- Once the `listening` flag is set, no later turn announces. -/
theorem announces_runAux_listening (p : String) (inputs : List TurnInput) :
    ∀ g, ∀ outs ∈ (runAux p g true inputs).1, announces outs = false := by
  induction inputs with
  | nil => intro g outs h; simp [runAux] at h
  | cons inp rest ih =>
    intro g outs h
    cases hr : reachesPending inp with
    | true =>
      rw [runAux_cons_pending p inp g true rest hr] at h
      simp only [List.mem_cons] at h
      rcases h with rfl | h
      · rw [announces_turn]; simp
      · rw [Bool.true_or] at h
        exact ih _ outs h
    | false =>
      rw [runAux_cons_stop p inp g true rest hr] at h
      simp only [List.mem_singleton] at h
      subst h
      rw [announces_turn]; simp [hr]

/-- `getD` of a list all of whose members fail a predicate, with a failing
default, fails the predicate. -/
theorem announces_getD_of_all_false (l : List (List Out))
    (h : ∀ outs ∈ l, announces outs = false) (n : Nat) :
    announces (l.getD n []) = false := by
  induction l generalizing n with
  | nil => simp [List.getD_nil, announces]
  | cons a l ih =>
    cases n with
    | zero => rw [List.getD_cons_zero]; exact h a (List.mem_cons_self a l)
    | succ n =>
      rw [List.getD_cons_succ]
      exact ih (fun outs ho => h outs (List.mem_cons_of_mem a ho)) n

/-- Across any run, at most one turn prints the announcement. -/
theorem countP_announces_runAux (p : String) (inputs : List TurnInput) :
    ∀ (g : Gossipsub) (l : Bool),
      (runAux p g l inputs).1.countP announces ≤ 1 := by
  induction inputs with
  | nil => intro g l; simp [runAux]
  | cons inp rest ih =>
    intro g l
    cases hr : reachesPending inp with
    | false =>
      rw [runAux_cons_stop p inp g l rest hr]
      simp [List.countP_cons, announces_turn, hr]
    | true =>
      rw [runAux_cons_pending p inp g l rest hr]
      rw [List.countP_cons]
      cases hA : announces (turn p inp g l).2 with
      | false =>
        simpa [hA] using ih (drainStdin g inp.stdinLines).1
          (l || !inp.listeners.isEmpty)
      | true =>
        have hne : inp.listeners.isEmpty = false := by
          rw [announces_turn, Bool.and_eq_true] at hA
          have h2 := hA.2
          rw [Bool.not_eq_true'] at h2
          exact h2
        have hfl : (l || !inp.listeners.isEmpty) = true := by
          rw [hne]; simp
        rw [hfl]
        have h0 : ((runAux p (drainStdin g inp.stdinLines).1 true rest).1).countP
            announces = 0 := by
          rw [List.countP_eq_zero]
          intro outs ho
          simp [announces_runAux_listening p rest _ outs ho]
        simp [hA, h0]

/-- The position of the announcement: it appears in turn `i`'s output iff
turn `i` reaches `Poll::Pending` with a non-empty listener set and every
earlier turn reached `Poll::Pending` with an empty listener set. -/
theorem announces_getD_iff (p : String) (inputs : List TurnInput) :
    ∀ (g : Gossipsub) (i : Nat),
      announces ((runAux p g false inputs).1.getD i []) = true ↔
        (reachesPending (inputs.getD i default) = true ∧
         (inputs.getD i default).listeners ≠ [] ∧
         ∀ j, j < i → reachesPending (inputs.getD j default) = true ∧
           (inputs.getD j default).listeners = []) := by
  induction inputs with
  | nil =>
    intro g i
    constructor
    · intro h
      simp [runAux, List.getD_nil, announces] at h
    · rintro ⟨h1, h2, h3⟩
      exact absurd rfl h2
  | cons inp rest ih =>
    intro g i
    cases hr : reachesPending inp with
    | false =>
      rw [runAux_cons_stop p inp g false rest hr]
      cases i with
      | zero =>
        rw [List.getD_cons_zero, List.getD_cons_zero, announces_turn]
        simp [hr]
      | succ n =>
        rw [List.getD_cons_succ, List.getD_cons_succ, List.getD_nil]
        constructor
        · intro h
          simp [announces] at h
        · rintro ⟨h1, h2, h3⟩
          have h0 := (h3 0 (Nat.succ_pos n)).1
          rw [List.getD_cons_zero, hr] at h0
          exact absurd h0 (by simp)
    | true =>
      rw [runAux_cons_pending p inp g false rest hr]
      rw [Bool.false_or]
      cases i with
      | zero =>
        rw [List.getD_cons_zero, List.getD_cons_zero, announces_turn]
        rw [hr]
        simp only [Bool.true_and, Bool.not_false, Bool.and_true]
        constructor
        · intro h
          refine ⟨trivial, ?_, fun j hj => absurd hj (Nat.not_lt_zero j)⟩
          rw [Bool.not_eq_true'] at h
          exact List.isEmpty_eq_false.mp h
        · rintro ⟨h1, h2, h3⟩
          rw [Bool.not_eq_true']
          exact List.isEmpty_eq_false.mpr h2
      | succ n =>
        rw [List.getD_cons_succ, List.getD_cons_succ]
        cases hemp : inp.listeners.isEmpty with
        | false =>
          simp only [Bool.not_false]
          constructor
          · intro h
            exfalso
            have hz := announces_getD_of_all_false
              ((runAux p (drainStdin g inp.stdinLines).1 true rest).1)
              (announces_runAux_listening p rest (drainStdin g inp.stdinLines).1)
              n
            rw [hz] at h
            exact Bool.false_ne_true h
          · rintro ⟨h1, h2, h3⟩
            have h0 := (h3 0 (Nat.succ_pos n)).2
            rw [List.getD_cons_zero] at h0
            rw [h0] at hemp
            simp at hemp
        | true =>
          simp only [Bool.not_true]
          rw [ih (drainStdin g inp.stdinLines).1 n]
          have hnil : inp.listeners = [] := List.isEmpty_iff.mp hemp
          constructor
          · rintro ⟨h1, h2, h3⟩
            refine ⟨h1, h2, fun j hj => ?_⟩
            cases j with
            | zero =>
              rw [List.getD_cons_zero]
              exact ⟨hr, hnil⟩
            | succ m =>
              rw [List.getD_cons_succ]
              exact h3 m (Nat.lt_of_succ_lt_succ hj)
          · rintro ⟨h1, h2, h3⟩
            refine ⟨h1, h2, fun j hj => ?_⟩
            have hs := h3 (j + 1) (Nat.succ_lt_succ hj)
            rw [List.getD_cons_succ] at hs
            exact hs

/-- A list whose last element is known is its `dropLast` with that element
re-appended (the pop/push round trip of `strip_peer_id`). -/
theorem dropLast_append_of_getLast? {α : Type} :
    ∀ (l : List α) (x : α), l.getLast? = some x → l.dropLast ++ [x] = l := by
  intro l
  induction l with
  | nil => intro x h; simp [List.getLast?] at h
  | cons a l ih =>
    intro x h
    cases l with
    | nil =>
      rw [List.getLast?_singleton] at h
      cases h
      rfl
    | cons b l2 =>
      rw [List.getLast?_cons_cons] at h
      rw [List.dropLast_cons₂, List.cons_append]
      rw [ih x h]

/-- An element failing a predicate that holds on all of `l1` must sit at or
past the end of `l1` in `l1 ++ l2`. -/
theorem length_le_of_get?_append {α : Type} (P : α → Bool) (l1 l2 : List α)
    (i : Nat) (o : α) (hl1 : ∀ x ∈ l1, P x = true)
    (hi : (l1 ++ l2).get? i = some o) (ho : P o = false) :
    l1.length ≤ i := by
  by_contra hc
  push_neg at hc
  rw [List.get?_append hc] at hi
  have hm := hl1 o (List.get?_mem hi)
  rw [hm] at ho
  exact absurd ho (by simp)

/-- An element satisfying a predicate that fails on all of `l2` must sit
inside `l1` in `l1 ++ l2`. -/
theorem lt_length_of_get?_append {α : Type} (P : α → Bool) (l1 l2 : List α)
    (j : Nat) (o : α) (hl2 : ∀ x ∈ l2, P x = false)
    (hj : (l1 ++ l2).get? j = some o) (ho : P o = true) :
    j < l1.length := by
  by_contra hc
  push_neg at hc
  rw [List.get?_append_right hc] at hj
  have hm := hl2 o (List.get?_mem hj)
  rw [hm] at ho
  exact absurd ho (by simp)

/-- A turn's output is the command interpreter's output followed by lines
that do not come from the interpreter (event prints, then the address
announcement). -/
theorem turn_outs_decomp (p : String) (inp : TurnInput) (g : Gossipsub)
    (l : Bool) :
    ∃ tail, (turn p inp g l).2 = (drainStdin g inp.stdinLines).2 ++ tail ∧
      ∀ o ∈ tail, fromInterpreter o = false := by
  unfold turn
  cases inp.stdinEnd with
  | closed => exact ⟨[], by simp, by simp⟩
  | ioError e => exact ⟨[], by simp, by simp⟩
  | pending =>
    cases hnd : inp.netDone with
    | true =>
      refine ⟨inp.netEvents.map Out.eventLine, by simp, ?_⟩
      intro o ho
      simp only [List.mem_map] at ho
      obtain ⟨e, _, rfl⟩ := ho
      rfl
    | false =>
      cases l with
      | true =>
        refine ⟨inp.netEvents.map Out.eventLine, by simp, ?_⟩
        intro o ho
        simp only [List.mem_map] at ho
        obtain ⟨e, _, rfl⟩ := ho
        rfl
      | false =>
        refine ⟨inp.netEvents.map Out.eventLine ++ inp.listeners.map
          (fun a => Out.addressLine (a ++ "/ipfs/" ++ p)), by simp, ?_⟩
        intro o ho
        simp only [List.mem_append, List.mem_map] at ho
        rcases ho with ⟨e, _, rfl⟩ | ⟨a, _, rfl⟩ <;> rfl

/-- When every argument parses and dials successfully, the dial loop prints
a `Dialed` line for each argument in order and returns success. -/
theorem dialLoop_all_ok (parse : String → Except String Multiaddr)
    (dial : Multiaddr → Except String Unit) :
    ∀ (args : List String),
      (∀ b ∈ args, ∃ ad, parse_legacy_multiaddr parse b = Except.ok ad ∧
        dial ad = Except.ok ()) →
      (dialLoop parse dial args).2 = Except.ok args := by
  intro args
  induction args with
  | nil => intro _; rfl
  | cons a rest ih =>
    intro h
    obtain ⟨ad, hp, hd⟩ := h a (List.mem_cons_self a rest)
    simp only [dialLoop, hp, hd]
    rw [ih (fun b hb => h b (List.mem_cons_of_mem a hb))]


/-! ## Claim theorems -/

/-- C1, counterexample: with a parser that accepts every address and a dial
operation that fails, running the startup dial loop on two addresses
attempts only one dial and aborts with the dial error — so a dial failure
is fatal and does prevent attempting the remaining address, although no
address parse error occurred. -/
theorem claim_C1_counterexample :
    (dialLoop (fun _ => Except.ok ([] : Multiaddr))
        (fun _ => Except.error "connection refused") ["addr1", "addr2"]).1.length = 1 ∧
    (dialLoop (fun _ => Except.ok ([] : Multiaddr))
        (fun _ => Except.error "connection refused") ["addr1", "addr2"]).2
      = Except.error "connection refused" :=
  ⟨rfl, rfl⟩

/-- C1 (amended): in the startup dial loop, an address parse error and a
dial error alike abort startup through error propagation — the error is
returned, and no later address is parsed or dialed; only when every
address parses and dials successfully does the loop report every address
as dialed. -/
theorem claim_C1_amended (parse : String → Except String Multiaddr)
    (dial : Multiaddr → Except String Unit) (a : String) (rest : List String) :
    (∀ e, parse_legacy_multiaddr parse a = Except.error e →
      dialLoop parse dial (a :: rest) = ([], Except.error e)) ∧
    (∀ addr e, parse_legacy_multiaddr parse a = Except.ok addr →
      dial addr = Except.error e →
      dialLoop parse dial (a :: rest) = ([addr], Except.error e)) ∧
    ((∀ b ∈ a :: rest, ∃ ad, parse_legacy_multiaddr parse b = Except.ok ad ∧
        dial ad = Except.ok ()) →
      (dialLoop parse dial (a :: rest)).2 = Except.ok (a :: rest)) := by
  refine ⟨?_, ?_, ?_⟩
  · intro e he
    simp only [dialLoop, he]
  · intro addr e hp hd
    simp only [dialLoop, hp, hd]
  · intro h
    exact dialLoop_all_ok parse dial (a :: rest) h

/-- C1 (amended), witness at a concrete parser, dialer and argument
list. -/
theorem claim_C1_amended_witness :
    dialLoop (fun _ => Except.ok ([Protocol.other "dns" "x"] : Multiaddr))
        (fun _ => Except.error "dial error") ["peerA", "peerB"]
      = ([[Protocol.other "dns" "x"]], Except.error "dial error") :=
  (claim_C1_amended (fun _ => Except.ok ([Protocol.other "dns" "x"] : Multiaddr))
      (fun _ => Except.error "dial error") "peerA" ["peerB"]).2.1
    [Protocol.other "dns" "x"] "dial error" rfl rfl

/-- C2: normalization parses the scheme-rewritten text (each `/`-separated
component equal to `ipfs` replaced by `p2p`) and then strips the peer
identifier: when the parsed address ends in a `P2p` component exactly that
trailing component is removed and all preceding components are kept;
otherwise the address is returned unchanged. -/
theorem claim_C2 (parse : String → Except String Multiaddr) (text : String)
    (addr : Multiaddr) (h : parse (sanitize text) = Except.ok addr) :
    parse_legacy_multiaddr parse text = Except.ok (strip_peer_id addr) ∧
    (∀ pre pid, addr = pre ++ [Protocol.p2p pid] → strip_peer_id addr = pre) ∧
    ((∀ pid, List.getLast? addr ≠ some (Protocol.p2p pid)) →
      strip_peer_id addr = addr) := by
  refine ⟨?_, ?_, ?_⟩
  · simp only [parse_legacy_multiaddr, h]
  · intro pre pid ha
    rw [ha]
    unfold strip_peer_id
    rw [List.getLast?_concat]
    exact List.dropLast_concat
  · intro hnp
    unfold strip_peer_id
    cases hL : List.getLast? addr with
    | none => rfl
    | some pr =>
      cases pr with
      | p2p pid => exact absurd hL (hnp pid)
      | other n v => exact dropLast_append_of_getLast? addr (Protocol.other n v) hL

/-- C2, witness: `/ip4/1.2.3.4/tcp/4001/ipfs/QmFoo` is rewritten to the
`p2p` scheme, parsed, and its trailing peer identifier stripped. -/
theorem claim_C2_witness :
    parse_legacy_multiaddr
        (fun s => if s = "/ip4/1.2.3.4/tcp/4001/p2p/QmFoo"
          then Except.ok [Protocol.other "ip4" "1.2.3.4",
            Protocol.other "tcp" "4001", Protocol.p2p "QmFoo"]
          else Except.error "invalid multiaddr")
        "/ip4/1.2.3.4/tcp/4001/ipfs/QmFoo"
      = Except.ok [Protocol.other "ip4" "1.2.3.4", Protocol.other "tcp" "4001"] :=
  ((claim_C2
      (fun s => if s = "/ip4/1.2.3.4/tcp/4001/p2p/QmFoo"
        then Except.ok [Protocol.other "ip4" "1.2.3.4",
          Protocol.other "tcp" "4001", Protocol.p2p "QmFoo"]
        else Except.error "invalid multiaddr")
      "/ip4/1.2.3.4/tcp/4001/ipfs/QmFoo"
      [Protocol.other "ip4" "1.2.3.4", Protocol.other "tcp" "4001",
        Protocol.p2p "QmFoo"] rfl).1).trans rfl

/-- C4: a closed stdin stream makes the turn end in the
`panic!("Stdin closed")` outcome and stops the run at that turn, while an
exhausted network stream (with stdin still pending) ends the event loop
with the success result `Ok(())` carrying the drained broadcast state. -/
theorem claim_C4 (p : String) (inp : TurnInput) (g : Gossipsub) (l : Bool)
    (rest : List TurnInput) :
    (inp.stdinEnd = StdinEnd.closed →
      (turn p inp g l).1 = TurnResult.fatal "Stdin closed" ∧
      (runAux p g l (inp :: rest)).2 = TurnResult.fatal "Stdin closed" ∧
      (runAux p g l (inp :: rest)).1.length = 1) ∧
    (inp.stdinEnd = StdinEnd.pending → inp.netDone = true →
      (turn p inp g l).1 = TurnResult.finished (drainStdin g inp.stdinLines).1 ∧
      (runAux p g l (inp :: rest)).2
        = TurnResult.finished (drainStdin g inp.stdinLines).1) := by
  constructor
  · intro hse
    have hrp : reachesPending inp = false := by
      unfold reachesPending; rw [hse]
    have ht : (turn p inp g l).1 = TurnResult.fatal "Stdin closed" := by
      unfold turn; rw [hse]
    refine ⟨ht, ?_, ?_⟩
    · rw [runAux_cons_stop p inp g l rest hrp]
      exact ht
    · rw [runAux_cons_stop p inp g l rest hrp]
      rfl
  · intro hse hnd
    have hrp : reachesPending inp = false := by
      unfold reachesPending; rw [hse, hnd]; rfl
    have ht : (turn p inp g l).1
        = TurnResult.finished (drainStdin g inp.stdinLines).1 := by
      unfold turn; rw [hse]; simp [hnd]
    refine ⟨ht, ?_⟩
    rw [runAux_cons_stop p inp g l rest hrp]
    exact ht

/-- C4, witness: stdin end-of-input panics even though a command line was
first applied; an exhausted network stream finishes with success. -/
theorem claim_C4_witness :
    (turn "P" ⟨["SUB t"], StdinEnd.closed, [], false, []⟩ Gossipsub.new false).1
      = TurnResult.fatal "Stdin closed" ∧
    (turn "P" ⟨[], StdinEnd.pending, ["ev"], true, []⟩ Gossipsub.new false).1
      = TurnResult.finished Gossipsub.new := by
  constructor
  · exact ((claim_C4 "P" ⟨["SUB t"], StdinEnd.closed, [], false, []⟩
      Gossipsub.new false []).1 rfl).1
  · exact ((claim_C4 "P" ⟨[], StdinEnd.pending, ["ev"], true, []⟩
      Gossipsub.new false []).2 rfl rfl).1

/-- C8: when the `swarm.key` read fails with `NotFound`, key loading
returns success with no key, and the transport built from `psk = None`
takes the branch without the private-network handshake (a single branch
for the whole transport descriptor). -/
theorem claim_C8 (read : String → Except FsErrorKind String)
    (path key_pair : String)
    (h : read (path ++ "/swarm.key") = Except.error FsErrorKind.notFound) :
    get_psk read path = Except.ok none ∧
    (build_transport key_pair none).maybeEncrypted = MaybeEncrypted.right ∧
    (build_transport key_pair none).timeoutSecs = 20 := by
  refine ⟨?_, rfl, rfl⟩
  simp only [get_psk, h]
  rfl

/-- C8, witness at a concrete filesystem returning `NotFound`. -/
theorem claim_C8_witness :
    get_psk (fun _ => Except.error FsErrorKind.notFound) "/root/.ipfs"
      = Except.ok none :=
  (claim_C8 (fun _ => Except.error FsErrorKind.notFound) "/root/.ipfs" "kp"
    rfl).1

/-- C9: at startup, before any user command is read, the behaviour's
broadcast protocol is subscribed to the fixed topic `chat`, so the
subscription state is non-empty when the event loop begins. -/
theorem claim_C9 :
    startupGossipsub.subscribed = ["chat"] ∧
    startupGossipsub.subscribed ≠ [] ∧
    gossipsub_topic = "chat" := by
  refine ⟨rfl, ?_, rfl⟩
  intro h
  cases h


/-- C3, counterexample: on a turn whose network source yields the event
`ev` (so not an idle turn — a source yielded new data) and whose listener
set is non-empty, the address announcement is printed in that same turn,
right after the event: the announcement is not restricted to idle
turns. -/
theorem claim_C3_counterexample :
    (TurnInput.mk [] StdinEnd.pending ["ev"] false ["addr1"]).netEvents ≠ [] ∧
    (turn "PEER" (TurnInput.mk [] StdinEnd.pending ["ev"] false ["addr1"])
        Gossipsub.new false).2
      = [Out.eventLine "ev", Out.addressLine "addr1/ipfs/PEER"] := by
  exact ⟨by decide, by decide⟩

/-- C3 (amended): across any run of the event loop started with the
`listening` flag unset, the announcement is printed in at most one turn,
and it appears in turn `i` exactly when turn `i` reaches the network
`Poll::Pending` arm with a non-empty listener set while every earlier turn
reached that arm with an empty listener set — whether or not stdin lines
or network events were processed earlier in the announcing turn. -/
theorem claim_C3_amended (p : String) (g : Gossipsub)
    (inputs : List TurnInput) :
    ((runAux p g false inputs).1.countP announces ≤ 1) ∧
    (∀ i : Nat,
      announces ((runAux p g false inputs).1.getD i []) = true ↔
        (reachesPending (inputs.getD i default) = true ∧
         (inputs.getD i default).listeners ≠ [] ∧
         ∀ j, j < i → reachesPending (inputs.getD j default) = true ∧
           (inputs.getD j default).listeners = [])) :=
  ⟨countP_announces_runAux p inputs g false,
   fun i => announces_getD_iff p inputs g i⟩

/-- C5: within a single scheduling turn, every line printed by the command
interpreter precedes every network-event line in the turn's output — all
immediately-available stdin commands are applied before any pending
network event is processed. -/
theorem claim_C5 (p : String) (inp : TurnInput) (g : Gossipsub) (l : Bool)
    (i j : Nat) (e : String) (oj : Out)
    (hi : ((turn p inp g l).2).get? i = some (Out.eventLine e))
    (hj : ((turn p inp g l).2).get? j = some oj)
    (hj2 : fromInterpreter oj = true) :
    j < i := by
  obtain ⟨tail, hdec, htail⟩ := turn_outs_decomp p inp g l
  rw [hdec] at hi hj
  have h1 : (drainStdin g inp.stdinLines).2.length ≤ i :=
    length_le_of_get?_append fromInterpreter
      (drainStdin g inp.stdinLines).2 tail i (Out.eventLine e)
      (fromInterpreter_drainStdin g inp.stdinLines) hi rfl
  have h2 : j < (drainStdin g inp.stdinLines).2.length :=
    lt_length_of_get?_append fromInterpreter
      (drainStdin g inp.stdinLines).2 tail j oj htail hj hj2
  omega

/-- C5, witness: in a turn that applies the line `kk` (printing a usage
diagnostic) and then prints the network event `ev`, the diagnostic sits at
index 0 and the event at index 1. -/
theorem claim_C5_witness :
    ((turn "P" ⟨["kk"], StdinEnd.pending, ["ev"], false, []⟩
        Gossipsub.new false).2).get? 0
      = some (Out.stderrLine "expected PUB or SUB") ∧
    (0 : Nat) < 1 := by
  refine ⟨by decide, ?_⟩
  exact claim_C5 "P" ⟨["kk"], StdinEnd.pending, ["ev"], false, []⟩
    Gossipsub.new false 1 0 "ev" (Out.stderrLine "expected PUB or SUB")
    (by decide) (by decide) rfl

/-- C6: a `SUB` line with no topic token, a `PUB` line with no topic or no
message token, and a line whose leading token is neither `SUB` nor `PUB`
each print a usage diagnostic on the error stream and leave the broadcast
state unchanged. -/
theorem claim_C6 (g : Gossipsub) (line : String) :
    (splitChar line ' ' = ["SUB"] →
      handle_input_line g line = (g, [Out.stderrLine "Expected topic"])) ∧
    (splitChar line ' ' = ["PUB"] →
      handle_input_line g line = (g, [Out.stderrLine "Expected topic"])) ∧
    (∀ t, splitChar line ' ' = ["PUB", t] →
      handle_input_line g line = (g, [Out.stderrLine "Expected message"])) ∧
    (∀ c rest, splitChar line ' ' = c :: rest → c ≠ "SUB" → c ≠ "PUB" →
      handle_input_line g line = (g, [Out.stderrLine "expected PUB or SUB"])) := by
  refine ⟨?_, ?_, ?_, ?_⟩
  · intro h
    unfold handle_input_line
    rw [h]
    rfl
  · intro h
    unfold handle_input_line
    rw [h]
    rfl
  · intro t h
    unfold handle_input_line
    rw [h]
    rfl
  · intro c rest h hc1 hc2
    unfold handle_input_line
    rw [h]
    simp only [handle_tokens]
    rw [if_neg hc1, if_neg hc2]

/-- C6, witness: the bare line `SUB` produces the topic-usage diagnostic
and no state change. -/
theorem claim_C6_witness :
    handle_input_line Gossipsub.new "SUB"
      = (Gossipsub.new, [Out.stderrLine "Expected topic"]) :=
  (claim_C6 Gossipsub.new "SUB").1 (by decide)

/-- C7: `subscribe` returns `true` iff the topic was not already
subscribed, a second `subscribe` on the same topic returns `false`, and
the `SUB` handler prints the success line exactly when `subscribe`
returned `true` and the failure line otherwise. -/
theorem claim_C7 (g : Gossipsub) (t : String) (line : String) :
    ((g.subscribe t).2 = true ↔ t ∉ g.subscribed) ∧
    (((g.subscribe t).1.subscribe t).2 = false) ∧
    (splitChar line ' ' = ["SUB", t] →
      handle_input_line g line =
        ((g.subscribe t).1,
         if (g.subscribe t).2 = true
         then [Out.stdoutLine ("Subscribed to topic " ++ t)]
         else [Out.stdoutLine "Failed to subscribe to topic"])) := by
  refine ⟨?_, ?_, ?_⟩
  · unfold Gossipsub.subscribe
    by_cases hm : t ∈ g.subscribed <;> simp [hm]
  · unfold Gossipsub.subscribe
    by_cases hm : t ∈ g.subscribed <;> simp [hm]
  · intro h
    unfold handle_input_line
    rw [h]
    unfold handle_tokens
    cases hx : (g.subscribe t).2 <;> simp [hx]

/-- C7, witness: subscribing to `a` from the startup state succeeds and is
reported; the underlying subscribe returned `true` because `a` was not yet
subscribed. -/
theorem claim_C7_witness :
    handle_input_line Gossipsub.new "SUB a"
      = ((Gossipsub.new.subscribe "a").1,
         if (Gossipsub.new.subscribe "a").2 = true
         then [Out.stdoutLine ("Subscribed to topic " ++ "a")]
         else [Out.stdoutLine "Failed to subscribe to topic"]) :=
  (claim_C7 Gossipsub.new "a" "SUB a").2.2 (by decide)

/-- C10: tokens come from splitting the line on the single space
character; a well-formed `PUB` line publishes exactly the third token as
the payload, regardless of any further tokens, prints nothing (the
publish result is not surfaced), and leaves the subscription state
unchanged. -/
theorem claim_C10 (g : Gossipsub) (line t m : String) (rest : List String)
    (h : splitChar line ' ' = "PUB" :: t :: m :: rest) :
    handle_input_line g line = ((g.publish t m).1, []) ∧
    (handle_input_line g line).1.published = g.published ++ [(t, m)] ∧
    (handle_input_line g line).1.subscribed = g.subscribed := by
  have h1 : handle_input_line g line = ((g.publish t m).1, []) := by
    unfold handle_input_line
    rw [h]
    rfl
  refine ⟨h1, ?_, ?_⟩
  · rw [h1]
    rfl
  · rw [h1]
    rfl

/-- C10, witness: `PUB t hello world` publishes payload `hello` on topic
`t`; the fourth token `world` is discarded and nothing is printed. -/
theorem claim_C10_witness :
    handle_input_line Gossipsub.new "PUB t hello world"
      = ({ subscribed := [], published := [("t", "hello")] }, []) :=
  ((claim_C10 Gossipsub.new "PUB t hello world" "t" "hello" ["world"]
    (by decide)).1).trans rfl

end PubSubLite
